import Mathlib

/-!
Shallow embedding of the cami-mind HTM core (src/layers/spatial_pooler.py,
src/layers/basic_cell.py, src/layers/temporal_memory.py).

Conventions:
* Python/numpy floats are modelled as rationals (ℚ).
* numpy arrays are Lean lists; a region of shape (d1, d2) is kept flattened
  as a list of length d1*d2 wherever the source only performs elementwise
  work, with the shape carried separately where numpy broadcasting matters.
* Fancy-index assignment x[idxs] = v is a left fold of List.set (with
  duplicate indices the last write wins, as in numpy).  Index validity is
  carried as a hypothesis where a theorem needs it.
* numpy's process-global random generator is modelled abstractly as a pair
  (seed, counter); np.random.seed s resets it to (s, 0) and each consuming
  call (np.random.shuffle) draws the value seed + counter and advances the
  counter.  Only the global-versus-owned structure of the generator is
  relevant to the claims, not the concrete stream.
* Operations that can raise in Python (broadcast failures, index errors)
  return Except String.
-/

deriving instance DecidableEq for Except

/-- numpy clip(x, 0.0, 1.0). -/
def clip01 (q : ℚ) : ℚ := min 1 (max 0 q)

/-- Truncation toward zero, the behaviour of a C float-to-int cast. -/
def truncZ (q : ℚ) : ℤ := if 0 ≤ q then ⌊q⌋ else ⌈q⌉

/-- Cast of a float to numpy int8: truncate toward zero, then wrap into
[-128, 128).  All values appearing in the development are far inside the
representable range, where the cast is exact truncation. -/
def int8Q (q : ℚ) : ℚ := (((truncZ q + 128) % 256 - 128 : ℤ) : ℚ)

/-- Fancy-index assignment xs[idxs] = v on a 1-D array. -/
def npSet {α : Type} (xs : List α) (idxs : List ℕ) (v : α) : List α :=
  idxs.foldl (fun a i => a.set i v) xs

/-- Fancy-index assignment xs[idxs] = vs with one value per index
(numpy semantics: with duplicate indices the last write wins). -/
def npSetEach (xs : List ℚ) (idxs : List ℕ) (vs : List ℚ) : List ℚ :=
  (idxs.zip vs).foldl (fun a p => a.set p.1 p.2) xs

/-- Abstract state of numpy's process-global generator. -/
structure Rng where
  seed : ℕ
  counter : ℕ
deriving Repr, DecidableEq

/-- np.random.seed s : reset the global generator. -/
def npSeed (s : ℕ) : Rng := ⟨s, 0⟩

/-- Draw one value from the global generator. -/
def rngNext (r : Rng) : ℕ × Rng := (r.seed + r.counter, ⟨r.seed, r.counter + 1⟩)

/-- np.random.shuffle, modelled as a rotation by the drawn value. -/
def npShuffle {α : Type} (l : List α) (r : Rng) : List α × Rng :=
  let v := (rngNext r).1
  (if l.length = 0 then l else l.rotate (v % l.length), (rngNext r).2)

/-- Index of the first minimal element (np.argmin); 0 on the empty list. -/
def argminN (xs : List ℕ) : ℕ :=
  (List.range xs.length).foldl
    (fun best i => if xs.getD i 0 < xs.getD best 0 then i else best) 0

/-- Every element of the list lies in the unit interval. -/
def inUnit (xs : List ℚ) : Prop := ∀ x ∈ xs, 0 ≤ x ∧ x ≤ 1

instance : DecidablePred inUnit := fun xs =>
  decidable_of_iff (∀ x ∈ xs, 0 ≤ x ∧ x ≤ 1) Iff.rfl

namespace BasicTMCell

/-- State of one BasicTMCell (src/layers/basic_cell.py): the owned segment
permanence arrays (each of region shape (d1, d2), kept flattened to length
d1*d2) and the cached active / matching segment index lists. -/
structure CellState where
  segments : List (List ℚ)
  activeSegments : List ℕ
  matchingSegments : List ℕ
deriving Repr, DecidableEq

/-- The fresh cell built by BasicTMCell.__init__: no segments, no cached
activity. -/
def init : CellState := ⟨[], [], []⟩

/-- predictive(): the cell has at least one active segment. -/
def predictive (st : CellState) : Bool := st.activeSegments.length > 0

/-- matching(): the cell has at least one matching segment. -/
def matching (st : CellState) : Bool := st.matchingSegments.length > 0

/-- getNumberOfSegments(). -/
def getNumberOfSegments (st : CellState) : ℕ := st.segments.length

/-- activateSegments(activeCells): recompute the cached active and matching
segment lists from the current active-cell set.  A segment is active iff its
count of connected (permanence ≥ minPermanence) synapses onto active cells
reaches activationThreshold, matching iff its count of potential
(permanence > 0) synapses onto active cells reaches minActive.  Guarded by
`if len(self._segmentPermanences):` in the source — a cell without segments
keeps its cached lists. -/
def activateSegments (n : ℕ) (minPermanence : ℚ) (activationThreshold minActive : ℚ)
    (st : CellState) (activeCells : List ℕ) : CellState :=
  if st.segments.length > 0 then
    let activeStates := npSet (List.replicate n 0) activeCells 1
    let connectedCount := fun (seg : List ℚ) =>
      ((List.range n).filter
        (fun i => decide (minPermanence ≤ seg.getD i 0) && decide (activeStates.getD i 0 = 1))).length
    let matchingCount := fun (seg : List ℚ) =>
      ((List.range n).filter
        (fun i => decide (0 < seg.getD i 0) && decide (activeStates.getD i 0 = 1))).length
    { st with
      activeSegments :=
        (List.range st.segments.length).filter
          (fun s => decide (activationThreshold ≤ (connectedCount (st.segments.getD s []) : ℚ)))
      matchingSegments :=
        (List.range st.segments.length).filter
          (fun s => decide (minActive ≤ (matchingCount (st.segments.getD s []) : ℚ))) }
  else st

/-- getActivePotentials(activeCells): per-segment count of nonzero
permanences onto active cells (count_nonzero of the elementwise product);
the sentinel [0] when the cell owns no segments. -/
def getActivePotentials (n : ℕ) (st : CellState) (activeCells : List ℕ) : List ℕ :=
  if st.segments.length < 1 then [0]
  else
    let activeStates := npSet (List.replicate n 0) activeCells 1
    st.segments.map (fun seg =>
      ((List.range n).filter
        (fun i => decide (seg.getD i 0 ≠ 0) && decide (activeStates.getD i 0 = 1))).length)

/-- adaptSegment(segment, previousCells, maxNewSynapses, initialPermanence,
permanenceInc, permanenceDec): the update array is built with
`np.full(..., permanenceDec, dtype=np.int8)` and assigned permanenceInc, so
both values are cast to int8 (fractional learning rates truncate to 0), and
the off-target entries carry +permanenceDec, not -permanenceDec.  The
update is masked by permanence > 0 and the result clipped to [0, 1].  The
growth branch then looks for positions with updates > 0 and post-update
permanence == 0; such a position cannot exist (adaptSegment_never_fails),
so the shuffle/write loop — which in the source would fancy-index the 2-D
segment array with coordinate pairs and overrun the eligible list — is dead
code, modelled as an error. -/
def adaptSegment (n : ℕ) (st : CellState) (segment : ℕ) (previousCells : List ℕ)
    (maxNewSynapses : ℕ) (initialPermanence permanenceInc permanenceDec : ℚ) (rng : Rng) :
    Except String (CellState × Rng) :=
  let _ := initialPermanence  -- consumed only by the unreachable growth branch
  let old := st.segments.getD segment []
  let updates0 := npSet (List.replicate n (int8Q permanenceDec)) previousCells (int8Q permanenceInc)
  let updates := List.zipWith (fun u p => if 0 < p then u else 0) updates0 old
  let newPerm := List.zipWith (fun p u => clip01 (p + u)) old updates
  let activeSynapsesCount := (updates.filter (fun u => decide (0 < u))).length
  let st' := { st with segments := st.segments.set segment newPerm }
  if 0 < (maxNewSynapses : ℤ) - (activeSynapsesCount : ℤ) then
    let eligible := (List.range n).filter
      (fun i => decide (0 < updates.getD i 0) && decide (newPerm.getD i 0 = 0))
    if eligible.length > 0 then Except.error "unreachable adaptSegment growth"
    else Except.ok (st', rng)
  else Except.ok (st', rng)

/-- One iteration of the punishMatchingSegments loop: replace segment s by
clip(segment - updates, 0, 1). -/
def punishStep (updates : List ℚ) (segs : List (List ℚ)) (s : ℕ) : List (List ℚ) :=
  segs.set s (List.zipWith (fun p u => clip01 (p - u)) (segs.getD s []) updates)

/-- punishMatchingSegments(prevActiveCells, permanenceDec): for every cached
matching segment, subtract permanenceDec at the prev-active targets and clip
to [0, 1]; a no-op when no segment is matching. -/
def punishMatchingSegments (n : ℕ) (st : CellState) (prevActiveCells : List ℕ)
    (permanenceDec : ℚ) : CellState :=
  if st.matchingSegments.length > 0 then
    let updates := npSet (List.replicate n 0) prevActiveCells permanenceDec
    { st with segments := st.matchingSegments.foldl (punishStep updates) st.segments }
  else st

/-- createSegment(maxNewSynapses, prevWinnerCells, initialPermanence):
append one fresh segment with min(maxNewSynapses, len(prevWinnerCells))
synapses at initialPermanence, targets taken from the shuffled winner list;
a silent no-op (consuming no randomness) when that count is zero. -/
def createSegment (n : ℕ) (st : CellState) (maxNewSynapses : ℕ)
    (prevWinnerCells : List ℕ) (initialPermanence : ℚ) (rng : Rng) :
    CellState × Rng :=
  let newSynapsesCount := min maxNewSynapses prevWinnerCells.length
  if newSynapsesCount > 0 then
    let sh := npShuffle prevWinnerCells rng
    let synapses :=
      (List.range newSynapsesCount).foldl
        (fun a i => a.set (sh.1.getD i 0) initialPermanence)
        (List.replicate n (0 : ℚ))
    ({ st with segments := st.segments ++ [synapses] }, sh.2)
  else (st, rng)

/-- Assign value v to the whole row `row` of a (d1, d2) array kept
flattened (flat positions row*d2 .. row*d2+d2-1). -/
def setRowQ (d2 : ℕ) (v : ℚ) (sg : List ℚ) (row : ℕ) : List ℚ :=
  (List.range d2).foldl (fun sg2 j => sg2.set (row * d2 + j) v) sg

/-- One iteration of the addSynapses write loop:
`perm[segment][eligibleSynapses[i]] = initialPermanence`, where the
coordinate triple acts as three fancy row indices on the (d1, d2) segment:
assign rows s, r, c wholesale, IndexError when the loop overruns the
shuffled eligible list or a component is not a valid row index. -/
def synWriteStep (d1 d2 : ℕ) (v : ℚ) (shuffled : List (ℕ × ℕ × ℕ))
    (acc : Except String (List ℚ)) (i : ℕ) : Except String (List ℚ) :=
  match acc with
  | .error e => .error e
  | .ok sg =>
    match shuffled.get? i with
    | none => .error "IndexError: eligible-list overrun in addSynapses"
    | some (s, r, c) =>
      if s < d1 ∧ r < d1 ∧ c < d1 then
        .ok (setRowQ d2 v (setRowQ d2 v (setRowQ d2 v sg s) r) c)
      else .error "IndexError: row index out of bounds in addSynapses"

/-- The addSynapses write loop `for i in range(newSynapseCount)`. -/
def synWriteLoop (d1 d2 : ℕ) (v : ℚ) (shuffled : List (ℕ × ℕ × ℕ)) (count : ℕ)
    (sg0 : List ℚ) : Except String (List ℚ) :=
  (List.range count).foldl (synWriteStep d1 d2 v shuffled) (Except.ok sg0)

/-- addSynapses(segment, previousCells, maxNewSynapses, initialPermanence).
The source mixes the flattened cells vector (length n = d1*d2) with
region-shaped (d1, d2) arrays, so both the active-synapse count
(`np.multiply(perm > 0, cells)`) and the eligibility mask
(`np.logical_and(cells, perms == 0)`) go through numpy broadcasting: they
are well-formed only when d1 = 1 (elementwise on the single row) or d2 = 1
(outer-product-like broadcast to (d1, n) resp. (numSeg, d1, n)), and raise
ValueError otherwise.  The write loop fancy-indexes the (d1, d2) segment
with a coordinate triple, which numpy reads as three row indices: it
assigns whole rows, raising IndexError when a component reaches d1 or when
the loop overruns the eligible list. -/
def addSynapses (d1 d2 : ℕ) (st : CellState) (segment : ℕ) (previousCells : List ℕ)
    (maxNewSynapses : ℕ) (initialPermanence : ℚ) (rng : Rng) :
    Except String (CellState × Rng) :=
  let n := d1 * d2
  let cells := npSet (List.replicate n (0 : ℚ)) previousCells 1
  let old := st.segments.getD segment []
  let cntE : Except String ℕ :=
    if d1 = 1 ∨ n = 1 then
      Except.ok ((List.range n).filter
        (fun j => decide (0 < old.getD j 0) && decide (cells.getD j 0 = 1))).length
    else if d2 = 1 then
      Except.ok (((List.range n).filter (fun r => decide (0 < old.getD r 0))).length *
                 ((List.range n).filter (fun c => decide (cells.getD c 0 = 1))).length)
    else Except.error "ValueError: broadcast in addSynapses count"
  match cntE with
  | .error e => .error e
  | .ok activeSynapsesCount =>
    if 0 < (maxNewSynapses : ℤ) - (activeSynapsesCount : ℤ) then
      let count := ((maxNewSynapses : ℤ) - (activeSynapsesCount : ℤ)).toNat
      let eligE : Except String (List (ℕ × ℕ × ℕ)) :=
        if st.segments.length = 0 then
          if n ≤ 1 then .ok []
          else .error "ValueError: broadcast in addSynapses eligibility"
        else if d1 = 1 then
          .ok ((List.range st.segments.length).flatMap (fun s =>
            ((List.range n).filter (fun j =>
              decide (cells.getD j 0 = 1) &&
              decide ((st.segments.getD s []).getD j 0 = 0))).map (fun j => (s, 0, j))))
        else if d2 = 1 then
          .ok ((List.range st.segments.length).flatMap (fun s =>
            (List.range n).flatMap (fun r =>
              if (st.segments.getD s []).getD r 0 = 0 then
                ((List.range n).filter (fun c => decide (cells.getD c 0 = 1))).map
                  (fun c => (s, r, c))
              else [])))
        else .error "ValueError: broadcast in addSynapses eligibility"
      match eligE with
      | .error e => .error e
      | .ok elig =>
        if elig.length > 0 then
          let sh := npShuffle elig rng
          let segE := synWriteLoop d1 d2 initialPermanence sh.1 count
            (st.segments.getD segment [])
          match segE with
          | .error e => .error e
          | .ok sg => .ok ({ st with segments := st.segments.set segment sg }, sh.2)
        else .ok (st, rng)
    else .ok (st, rng)

/-- One iteration of the adaptActiveSegments loop over the cached active
segments: mask the float update array by permanence > 0, add, clip to
[0, 1], then grow toward prevWinnerCells via addSynapses. -/
def adaptActiveStep (d1 d2 : ℕ) (updates : List ℚ) (prevWinnerCells : List ℕ)
    (maxNewSynapses : ℕ) (initialPermanence : ℚ)
    (acc : Except String (CellState × Rng)) (segment : ℕ) :
    Except String (CellState × Rng) :=
  match acc with
  | .error e => .error e
  | .ok (cst, r) =>
    let old := cst.segments.getD segment []
    let segmentUpdates := List.zipWith (fun p u => if 0 < p then u else 0) old updates
    let newSeg := List.zipWith (fun p u => clip01 (p + u)) old segmentUpdates
    let cst' := { cst with segments := cst.segments.set segment newSeg }
    addSynapses d1 d2 cst' segment prevWinnerCells maxNewSynapses initialPermanence r

/-- adaptActiveSegments(prevActiveCells, maxNewSynapses, prevWinnerCells,
initialPermanence, permanenceInc, permanenceDec): when the cell has active
segments, build the float update array (+permanenceInc at prev-active
targets, -permanenceDec elsewhere) and run the adapt step over every
cached active segment. -/
def adaptActiveSegments (d1 d2 : ℕ) (st : CellState) (prevActiveCells : List ℕ)
    (maxNewSynapses : ℕ) (prevWinnerCells : List ℕ)
    (initialPermanence permanenceInc permanenceDec : ℚ) (rng : Rng) :
    Except String (CellState × Rng) :=
  let n := d1 * d2
  if st.activeSegments.length > 0 then
    let updates := npSet (List.replicate n (-permanenceDec)) prevActiveCells permanenceInc
    st.activeSegments.foldl
      (adaptActiveStep d1 d2 updates prevWinnerCells maxNewSynapses initialPermanence)
      (Except.ok (st, rng))
  else .ok (st, rng)

end BasicTMCell

/-- A value passed to SpatialPooler.compute: either not a numpy array at
all, or a (1-D) array of floats. -/
inductive NpInput where
  | notArray
  | arr (xs : List ℚ)
deriving Repr, DecidableEq

namespace SpatialPooler

/-- State of the SpatialPooler (src/layers/spatial_pooler.py): the
hyperparameters together with the columnDim × inputDim permanence matrix
and the int8 0/1 potential mask. -/
structure SPState where
  inputDim : ℕ
  n : ℕ
  w : ℕ
  pot_pct : ℚ
  minPermanence : ℚ
  activeInc : ℚ
  inactiveDec : ℚ
  permanences : List (List ℚ)
  potentials : List (List ℕ)
deriving Repr, DecidableEq

/-- numPotentials = int(pot_pct * inputDim + 0.5).  Python int() truncates
toward zero, which for the nonnegative values in use is the floor. -/
def numPotentials (pot_pct : ℚ) (inputDim : ℕ) : ℕ :=
  (⌊pot_pct * (inputDim : ℚ) + 1/2⌋).toNat

/-- SpatialPooler.__init__.  The constructor reseeds the process-global
generator (np.random.seed(seed)) and then, per column, draws numPotentials
indices with np.random.randint(0, inputDim, ...) — sampling WITH
replacement — and numPotentials values from a normal distribution centered
at minPermanence.  The embedding takes the drawn index rows (bitDraws) and
normal rows (permDraws) as explicit arguments; with duplicate indices the
last write wins, as in numpy fancy assignment.  The normal draws are left
unclipped. -/
def init (inputDim columnDim numActiveCols : ℕ)
    (pot_pct minPermanence activeInc inactiveDec : ℚ)
    (bitDraws : List (List ℕ)) (permDraws : List (List ℚ)) : SPState :=
  let rows := (List.range columnDim).map (fun i =>
    let bits := bitDraws.getD i []
    let draws := permDraws.getD i []
    (npSet (List.replicate inputDim (0 : ℕ)) bits 1,
     npSetEach (List.replicate inputDim (0 : ℚ)) bits draws))
  { inputDim := inputDim, n := columnDim, w := numActiveCols,
    pot_pct := pot_pct, minPermanence := minPermanence,
    activeInc := activeInc, inactiveDec := inactiveDec,
    permanences := rows.map (fun r => r.2),
    potentials := rows.map (fun r => r.1) }

/-- overlapScores[c] = sum over the input axis of
multiply(permanences[c] >= minPermanence, encodedInput).  Note the product
uses the raw input values (the source never checks they are 0/1). -/
def overlapScore (st : SPState) (input : List ℚ) (c : ℕ) : ℚ :=
  ((List.range st.inputDim).map (fun j =>
    if st.minPermanence ≤ (st.permanences.getD c []).getD j 0 then input.getD j 0 else 0)).sum

/-- Insert index i into an index list sorted ascending by key, after any
equal keys. -/
def insertAsc (xs : List ℚ) (i : ℕ) : List ℕ → List ℕ
  | [] => [i]
  | j :: rest => if xs.getD i 0 < xs.getD j 0 then i :: j :: rest else j :: insertAsc xs i rest

/-- np.argsort: indices sorted by ascending key.  numpy's default quicksort
gives no stability guarantee on ties; the model breaks ties by lower index
(all tie-sensitive facts below are evaluated on distinct keys). -/
def argsortAsc (xs : List ℚ) : List ℕ :=
  (List.range xs.length).foldl (fun acc i => insertAsc xs i acc) []

/-- The two result forms of compute: a list of active-column indices, or
(asarray) a dense int8 0/1 vector of length columnDim. -/
inductive SPResult where
  | idxs (l : List ℕ)
  | dense (v : List ℕ)
deriving Repr, DecidableEq

/-- SpatialPooler.compute(encodedInput, learn, asarray).  Raises TypeError
when the input is not a numpy array and ValueError when its size differs
from inputDim — element values are never validated.  Overlap scores are the
connected-synapse/input products summed per column; the active columns are
the FIRST w entries of the ASCENDING argsort of the overlap scores, i.e.
the w columns of LOWEST overlap.  With learn, the selected columns' rows
get input*(activeInc+inactiveDec) - inactiveDec at potential-mask
positions and the whole updated row is clipped to [0, 1]. -/
def compute (st : SPState) (encodedInput : NpInput) (learn asarray : Bool) :
    Except String (SPResult × SPState) :=
  match encodedInput with
  | .notArray => .error "TypeError: Input must be a numpy array"
  | .arr input =>
    if input.length ≠ st.inputDim then
      .error "ValueError: Input dimensions do not match"
    else
      let overlaps := (List.range st.n).map (overlapScore st input)
      let activeCols := (argsortAsc overlaps).take st.w
      let st' :=
        if learn then
          let updates := (List.range st.inputDim).map
            (fun j => input.getD j 0 * (st.activeInc + st.inactiveDec) - st.inactiveDec)
          let newRow := fun (pm : List (List ℚ)) (c : ℕ) =>
            (List.range st.inputDim).map (fun j =>
              clip01 ((pm.getD c []).getD j 0 +
                (if (st.potentials.getD c []).getD j 0 = 1 then updates.getD j 0 else 0)))
          let newPerms := activeCols.foldl (fun pm c => pm.set c (newRow pm c)) st.permanences
          { st with permanences := newPerms }
        else st
      let res := if asarray then SPResult.dense (npSet (List.replicate st.n (0 : ℕ)) activeCols 1)
                 else SPResult.idxs activeCols
      .ok (res, st')

end SpatialPooler

/-- Index of the first maximal element (np.argmax) of a list of naturals;
0 on the empty list. -/
def argmaxN (xs : List ℕ) : ℕ :=
  (List.range xs.length).foldl
    (fun best i => if xs.getD best 0 < xs.getD i 0 then i else best) 0

namespace TemporalMemory

/-- The columnDim × cellsPerColumn grid of cells. -/
abbrev Cells := List (List BasicTMCell.CellState)

/-- Hyperparameters of the TemporalMemory layer.  Each cell is constructed
with regionDim = (columnDim, cellsPerColumn), so the region has
columnDim * cellsPerColumn cells. -/
structure TMParams where
  columnDim : ℕ
  cellsPerColumn : ℕ
  maxSegmentsPerCell : ℕ
  maxSynapsesPerSegment : ℕ
  minActive : ℚ
  activationThreshold : ℚ
  minPermanence : ℚ
  initialPermanence : ℚ
  maxNewSynapses : ℕ
  permanenceInc : ℚ
  permanenceDec : ℚ
deriving Repr, DecidableEq

/-- Mutable state of the layer: the cell grid and the per-cycle
activeCells / winnerCells flat index lists. -/
structure TMState where
  cells : Cells
  activeCells : List ℕ
  winnerCells : List ℕ
deriving Repr, DecidableEq

/-- TemporalMemory.__init__: a fresh grid of BasicTMCells and empty
active/winner lists.  The constructor also calls np.random.seed(seed) on
the process-global generator, returned here as the new global Rng. -/
def initState (p : TMParams) : TMState :=
  ⟨(List.range p.columnDim).map (fun _i =>
      (List.range p.cellsPerColumn).map (fun _j => BasicTMCell.init)), [], []⟩

/-- Construction including its np.random.seed(seed) side effect on the
global generator (the previous global Rng is discarded). -/
def initWithSeed (p : TMParams) (seed : ℕ) : TMState × Rng := (initState p, npSeed seed)

/-- Read the cell at (column i, cell j). -/
def cellAt (cells : Cells) (i j : ℕ) : BasicTMCell.CellState :=
  (cells.getD i []).getD j BasicTMCell.init

/-- Write the cell at (column i, cell j). -/
def setCell (cells : Cells) (i j : ℕ) (c : BasicTMCell.CellState) : Cells :=
  cells.set i ((cells.getD i []).set j c)

/-- np.flatnonzero of a columnDim × width boolean array (row-major flat
indices i * width + j). -/
def flatNonzeroB (width : ℕ) (m : List (List Bool)) : List ℕ :=
  (List.range m.length).flatMap (fun i =>
    (List.range width).filterMap (fun j =>
      if (m.getD i []).getD j false then some (i * width + j) else none))

/-- np.where(a != b)[0] for 1-D boolean arrays under numpy broadcasting:
elementwise when the lengths agree, scalar-broadcast when either side has
length 1, and ValueError otherwise.  This is the semantics of the source's
`np.where(activeCellsPerColumn != columns[0])[0]`, which compares the
per-column activity vector (length columnDim) against ROW 0 of the column
mask (length cellsPerColumn). -/
def whereNe (a b : List Bool) : Except String (List ℕ) :=
  if a.length = b.length then
    .ok ((List.range a.length).filter (fun i => decide ((a.getD i false) ≠ (b.getD i false))))
  else if b.length = 1 then
    .ok ((List.range a.length).filter (fun i => decide ((a.getD i false) ≠ (b.getD 0 false))))
  else if a.length = 1 then
    .ok ((List.range b.length).filter (fun j => decide ((a.getD 0 false) ≠ (b.getD j false))))
  else .error "ValueError: broadcast in bursting comparison"

/-- The pure prefix of TemporalMemory.compute (lines 99-108): predictive
states from the previous cycle, the column mask, the predicted-active
cells (which seed both activeCells and winnerCells), the bursting columns
from the broadcast comparison against columns[0], and the active-cell
array after setting every bursting column's row. -/
structure TMPre where
  predicted : List (ℕ × ℕ)
  inactivePredicted : List (ℕ × ℕ)
  winners0 : List ℕ
  bursting : List ℕ
  active1 : List (List Bool)
  newActive : List ℕ
deriving Repr, DecidableEq

/-- Lines 99-108 of TemporalMemory.compute, together with the
inactive-predicted pairs of line 120-121 (computed from the same unmutated
columns/predictiveStates arrays).  Fails as the source does: IndexError
when an active column index or a bursting index is out of range, and
ValueError when the bursting broadcast is ill-formed. -/
def tmPhase1 (p : TMParams) (st : TMState) (activeColumns : List ℕ) :
    Except String TMPre :=
  let cd := p.columnDim
  let cpc := p.cellsPerColumn
  if ¬ activeColumns.all (fun c => c < cd) then
    .error "IndexError: active column index out of range"
  else if cd = 0 then .error "IndexError: columns[0] of an empty array"
  else
    let predictiveStates := (List.range cd).map (fun i =>
      (List.range cpc).map (fun j => BasicTMCell.predictive (cellAt st.cells i j)))
    let columns := (List.range cd).map (fun i =>
      (List.range cpc).map (fun _j => decide (i ∈ activeColumns)))
    let active0 := (List.range cd).map (fun i =>
      (List.range cpc).map (fun j =>
        ((columns.getD i []).getD j false) && ((predictiveStates.getD i []).getD j false)))
    let winners0 := flatNonzeroB cpc active0
    let predicted := (List.range cd).flatMap (fun i =>
      (List.range cpc).filterMap (fun j =>
        if (active0.getD i []).getD j false then some (i, j) else none))
    let activeCellsPerColumn := (List.range cd).map (fun i => (active0.getD i []).any id)
    let row0 := columns.getD 0 []
    match whereNe activeCellsPerColumn row0 with
    | .error e => .error e
    | .ok bursting =>
      if ¬ bursting.all (fun c => c < cd) then
        .error "IndexError: bursting column index out of range"
      else
        let active1 := bursting.foldl (fun m c => m.set c (List.replicate cpc true)) active0
        let inactivePredicted := (List.range cd).flatMap (fun i =>
          (List.range cpc).filterMap (fun j =>
            if (!((columns.getD i []).getD j false)) && ((predictiveStates.getD i []).getD j false)
            then some (i, j) else none))
        .ok ⟨predicted, inactivePredicted, winners0, bursting, active1,
             flatNonzeroB cpc active1⟩

/-- One bursting column of TemporalMemory._findWinnerCells: per-cell active
potentials against the current active cells, then either the best-match
branch (np.argmax, so ties go to the lowest cell index; with learn,
adaptSegment on the best segment toward prevWinnerCells) or the
fewest-segments branch (np.argmin; with learn, createSegment toward
prevWinnerCells).  np.max of the empty per-cell list raises when
cellsPerColumn = 0. -/
def winnerStep (p : TMParams) (cells : Cells) (newActive prevWinner : List ℕ)
    (learn : Bool) (column : ℕ) (rng : Rng) : Except String (Cells × ℕ × Rng) :=
  let cpc := p.cellsPerColumn
  let n := p.columnDim * cpc
  if cpc = 0 then .error "ValueError: zero-size array reduction"
  else
    let cellAPs := (List.range cpc).map (fun j =>
      BasicTMCell.getActivePotentials n (cellAt cells column j) newActive)
    let maxAPs := cellAPs.map (fun l => l.foldl max 0)
    if 0 < maxAPs.foldl max 0 then
      let winner := argmaxN maxAPs
      if learn then
        let segment := argmaxN (cellAPs.getD winner [])
        match BasicTMCell.adaptSegment n (cellAt cells column winner) segment prevWinner
            p.maxNewSynapses p.initialPermanence p.permanenceInc p.permanenceDec rng with
        | .error e => .error e
        | .ok (c', rng') => .ok (setCell cells column winner c', winner, rng')
      else .ok (cells, winner, rng)
    else
      let segmentCounts := (List.range cpc).map (fun j => (cellAt cells column j).segments.length)
      let winner := argminN segmentCounts
      if learn then
        let (c', rng') := BasicTMCell.createSegment n (cellAt cells column winner)
          p.maxNewSynapses prevWinner p.initialPermanence rng
        .ok (setCell cells column winner c', winner, rng')
      else .ok (cells, winner, rng)

/-- The loop of _findWinnerCells over the bursting columns, accumulating
the winners' flat indices column * cellsPerColumn + winner. -/
def goWinner (p : TMParams) (newActive prevWinner : List ℕ) (learn : Bool) :
    List ℕ → Cells → List ℕ → Rng → Except String (Cells × List ℕ × Rng)
  | [], cells, acc, rng => .ok (cells, acc, rng)
  | c :: rest, cells, acc, rng =>
    match winnerStep p cells newActive prevWinner learn c rng with
    | .error e => .error e
    | .ok (cells', w, rng') =>
      goWinner p newActive prevWinner learn rest cells'
        (acc ++ [c * p.cellsPerColumn + w]) rng'

/-- The learn section of compute (lines 111-123): adaptActiveSegments on
every predicted-active cell, then punishMatchingSegments on every
predictive cell of an inactive column. -/
def tmLearn (p : TMParams) (cells : Cells)
    (predicted inactivePredicted : List (ℕ × ℕ))
    (prevActive prevWinner : List ℕ) (rng : Rng) : Except String (Cells × Rng) :=
  let n := p.columnDim * p.cellsPerColumn
  let stepA := fun (acc : Except String (Cells × Rng)) (ij : ℕ × ℕ) =>
    match acc with
    | .error e => .error e
    | .ok (cs, r) =>
      match BasicTMCell.adaptActiveSegments p.columnDim p.cellsPerColumn
          (cellAt cs ij.1 ij.2) prevActive p.maxNewSynapses prevWinner
          p.initialPermanence p.permanenceInc p.permanenceDec r with
      | .error e => .error e
      | .ok (c', r') => .ok (setCell cs ij.1 ij.2 c', r')
  match predicted.foldl stepA (Except.ok (cells, rng)) with
  | .error e => .error e
  | .ok (cs, r) =>
    let cs' := inactivePredicted.foldl (fun m ij =>
      setCell m ij.1 ij.2
        (BasicTMCell.punishMatchingSegments n (cellAt m ij.1 ij.2) prevActive p.permanenceDec)) cs
    .ok (cs', r)

/-- Lines 125-127: re-run activateSegments on every cell with the new
active-cell set. -/
def tmActivate (p : TMParams) (cells : Cells) (newActive : List ℕ) : Cells :=
  cells.map (fun col => col.map (fun c =>
    BasicTMCell.activateSegments (p.columnDim * p.cellsPerColumn) p.minPermanence
      p.activationThreshold p.minActive c newActive))

/-- The result of one compute call: the new layer state, the returned
(activeCells, predictiveCells) pair, and the global generator after the
call. -/
structure TMOut where
  state : TMState
  activeOut : List ℕ
  predictiveOut : List ℕ
  rng : Rng
deriving Repr, DecidableEq

/-- TemporalMemory.compute(activeColumns, learn), threading the
process-global generator explicitly.  The stored activeCells become the
flat indices of the predicted-active cells plus all cells of the bursting
columns; the stored winnerCells are the predicted-active cells followed by
one winner per bursting column; compute returns the stored activeCells and
the flat indices of the cells predictive after re-activation. -/
def compute (p : TMParams) (st : TMState) (activeColumns : List ℕ) (learn : Bool)
    (rng : Rng) : Except String TMOut :=
  let prevActive := st.activeCells
  let prevWinner := st.winnerCells
  match tmPhase1 p st activeColumns with
  | .error e => .error e
  | .ok pre =>
    match goWinner p pre.newActive prevWinner learn pre.bursting st.cells [] rng with
    | .error e => .error e
    | .ok (cells1, extra, rng1) =>
      let learnRes := if learn then
          tmLearn p cells1 pre.predicted pre.inactivePredicted prevActive prevWinner rng1
        else Except.ok (cells1, rng1)
      match learnRes with
      | .error e => .error e
      | .ok (cells2, rng2) =>
        let cells3 := tmActivate p cells2 pre.newActive
        let predictive3 := flatNonzeroB p.cellsPerColumn
          ((List.range p.columnDim).map (fun i =>
            (List.range p.cellsPerColumn).map (fun j =>
              BasicTMCell.predictive (cellAt cells3 i j))))
        .ok ⟨⟨cells3, pre.newActive, pre.winners0 ++ extra⟩, pre.newActive, predictive3, rng2⟩

end TemporalMemory

/-! Concrete scenarios used by the claim theorems. -/

/-- A pooler over one input bit with two columns and w = 1, built from the
explicit construction draws: column 0's potential permanence is -1 (an
admissible normal draw, disconnected), column 1's is 1 (connected).  On
input [1] the overlap scores are (0, 1). -/
def spC1 : SpatialPooler.SPState :=
  SpatialPooler.init 1 2 1 1 (1/2) (1/10) (1/10) [[0], [0]] [[-1], [1]]

/-- A pooler with inputDim = 2 and in-range permanences, for the
input-validation scenarios. -/
def spC8 : SpatialPooler.SPState :=
  SpatialPooler.init 2 1 1 1 (1/2) (1/10) (1/10) [[0, 1]] [[1, 1]]

/-- A small TemporalMemory: 2 columns × 2 cells, thresholds 1, learning
rates 1/10, maxNewSynapses 1. -/
def tmP : TemporalMemory.TMParams := ⟨2, 2, 10, 10, 1, 1, 1/2, 1/2, 1, 1/10, 1/10⟩

/-- Two learning compute cycles of one TemporalMemory on the constant
column stream [0]; when interleave is set, a second, independently seeded
TemporalMemory is constructed between the two calls, whose __init__
reseeds the process-global generator. -/
def c7Run (interleave : Bool) : Except String TemporalMemory.TMOut :=
  match TemporalMemory.compute tmP (TemporalMemory.initState tmP) [0] true (npSeed 45) with
  | .error e => .error e
  | .ok o1 =>
    TemporalMemory.compute tmP o1.state [0] true
      (if interleave then (TemporalMemory.initWithSeed tmP 46).2 else o1.rng)

/-- The predicted-active matrix of a compute cycle: cell (i, j) is marked
iff column i is active and the cell was predictive from the previous
cycle. -/
def paMatrix (p : TemporalMemory.TMParams) (st : TemporalMemory.TMState)
    (activeColumns : List ℕ) : List (List Bool) :=
  (List.range p.columnDim).map (fun i =>
    (List.range p.cellsPerColumn).map (fun j =>
      decide (i ∈ activeColumns) &&
        BasicTMCell.predictive (TemporalMemory.cellAt st.cells i j)))

/-- The predicted-active cells of a compute cycle, as flat indices: cells
predictive from the previous cycle (at least one cached active segment)
that lie in an active column. -/
def predictedActiveFlat (p : TemporalMemory.TMParams) (st : TemporalMemory.TMState)
    (activeColumns : List ℕ) : List ℕ :=
  TemporalMemory.flatNonzeroB p.cellsPerColumn (paMatrix p st activeColumns)

/-- A 2×2 TemporalMemory state whose cell (0, 0) has one segment and is
predictive (cached active segment 0) from the previous cycle. -/
def stC5 : TemporalMemory.TMState :=
  ⟨[[⟨[[1, 0, 0, 0]], [0], [0]⟩, BasicTMCell.init],
    [BasicTMCell.init, BasicTMCell.init]], [], []⟩

/-- The result of compute tmP stC5 [0] false (npSeed 1): cell 0 is
predicted-active, column 1 bursts (via the columns[0] comparison), and the
active cells are [0, 2, 3]. -/
def oC5 : TemporalMemory.TMOut :=
  ⟨⟨[[⟨[[1, 0, 0, 0]], [0], [0]⟩, BasicTMCell.init],
     [BasicTMCell.init, BasicTMCell.init]], [0, 2, 3], [0, 2]⟩, [0, 2, 3], [0], npSeed 1⟩

/-- C1: the code violates highest-overlap selection.  On a pooler whose
column 0 has overlap 0 and column 1 has overlap 1 (connected synapse on the
lone set input bit), compute with w = 1 returns column 0 — np.argsort is
ascending and the slice [:w] takes the LOWEST-overlap columns, so a column
whose overlap strictly exceeds another's is passed over. -/
theorem C1_selects_lowest_overlap :
    (SpatialPooler.compute spC1 (NpInput.arr [1]) true false).map Prod.fst
      = Except.ok (SpatialPooler.SPResult.idxs [0])
  ∧ SpatialPooler.overlapScore spC1 [1] 0 < SpatialPooler.overlapScore spC1 [1] 1 := by
  with_unfolding_all decide

/-- C2 counterexample: immediately after construction a permanence can lie
outside [0, 1]: the initial values are unclipped normal draws, and the
admissible draw -1/10 leaves a negative permanence entry. -/
theorem C2_init_unclipped :
    ¬ inUnit ((SpatialPooler.init 1 1 1 1 (1/2) (1/10) (1/10)
      [[0]] [[-1/10]]).permanences.getD 0 []) := by
  with_unfolding_all decide

/-- C3: the bursting set is wrong.  On a fresh 2×2 TemporalMemory (no cell
predictive anywhere) with activeColumns = [0], the returned active cells
are [0, 1, 2, 3]: column 1 — inactive and without predicted-active cells —
bursts too, because the source compares per-column activity against
columns[0] (row 0 of the column mask) instead of each column's own
activity.  Under the claim only column 0 bursts and the active cells would
be [0, 1]. -/
theorem C3_inactive_column_bursts :
    (TemporalMemory.compute tmP (TemporalMemory.initState tmP) [0] true (npSeed 45)).map
        (fun o => o.activeOut) = Except.ok [0, 1, 2, 3]
  ∧ (2 : ℕ) / tmP.cellsPerColumn ∉ ([0] : List ℕ)
  ∧ (∀ i ∈ List.range tmP.columnDim, ∀ j ∈ List.range tmP.cellsPerColumn,
      BasicTMCell.predictive (TemporalMemory.cellAt (TemporalMemory.initState tmP).cells i j)
        = false) := by
  with_unfolding_all decide

/-- C4: adaptSegment neither increments nor decrements as claimed.  With
the usual fractional rates (1/10) the int8-typed update array truncates
both rates to 0 and the segment [1/2, 1/2] is returned unchanged (the
claim demands [3/5, 2/5]); with integer rates 1 the off-target synapse is
INCREASED by permanenceDec (np.full is built with +permanenceDec), giving
[1, 1] where the claim demands [1, 0]. -/
theorem C4_adaptSegment_truncates_and_adds :
    BasicTMCell.adaptSegment 2 ⟨[[1/2, 1/2]], [], []⟩ 0 [0] 0 (1/2) (1/10) (1/10) (npSeed 1)
      = Except.ok (⟨[[1/2, 1/2]], [], []⟩, npSeed 1)
  ∧ BasicTMCell.adaptSegment 2 ⟨[[1/2, 1/2]], [], []⟩ 0 [0] 0 (1/2) 1 1 (npSeed 1)
      = Except.ok (⟨[[1, 1]], [], []⟩, npSeed 1) := by
  with_unfolding_all decide

/-- C7: the components share the process-global generator.  Running the
same TemporalMemory over the same input stream, the synapses grown in the
second cycle change when an unrelated, independently seeded TemporalMemory
is merely constructed between the calls (its __init__ reseeds np.random). -/
theorem C7_global_generator_interference :
    (c7Run false).map (fun o => (TemporalMemory.cellAt o.state.cells 0 0).segments)
      = Except.ok [[0, 0, 1/2, 0]]
  ∧ (c7Run true).map (fun o => (TemporalMemory.cellAt o.state.cells 0 0).segments)
      = Except.ok [[1/2, 0, 0, 0]] := by
  with_unfolding_all decide

/-- C8 counterexample: an input that is a numpy array of the right size
but not boolean/0-1 (the value 2) is accepted without any error, so
compute does not raise exactly on non-boolean inputs. -/
theorem C8_content_not_validated :
    SpatialPooler.compute spC8 (NpInput.arr [2, 0]) false false
      = Except.ok (SpatialPooler.SPResult.idxs [0], spC8) := by
  with_unfolding_all decide

/-- C9 counterexample: the potential indices are drawn WITH replacement
(np.random.randint), so with numPotentials = round(1/2 * 4) = 2 the
admissible draw row [0, 0] yields a potential pool of only ONE distinct
index. -/
theorem C9_draws_with_replacement :
    SpatialPooler.numPotentials (1/2) 4 = 2
  ∧ (SpatialPooler.init 4 1 1 (1/2) (1/2) (1/10) (1/10)
      [[0, 0]] [[-1/10, 3/10]]).potentials.getD 0 [] = [1, 0, 0, 0]
  ∧ ((SpatialPooler.init 4 1 1 (1/2) (1/2) (1/10) (1/10)
      [[0, 0]] [[-1/10, 3/10]]).potentials.getD 0 []).count 1 = 1 := by
  with_unfolding_all decide

/-! Basic lemmas about the numpy primitives. -/

/-- clip01 is nonnegative. -/
theorem clip01_nonneg (q : ℚ) : 0 ≤ clip01 q :=
  le_min (by norm_num) (le_max_left 0 q)

/-- clip01 is at most one. -/
theorem clip01_le_one (q : ℚ) : clip01 q ≤ 1 := min_le_left 1 _

/-- clip01 never exceeds a nonnegative upper bound of its argument. -/
theorem clip01_le (q r : ℚ) (h : q ≤ r) (h0 : 0 ≤ r) : clip01 q ≤ r :=
  le_trans (min_le_right 1 _) (max_le h0 h)

/-- clip01 fixes values already in the unit interval. -/
theorem clip01_of_unit (q : ℚ) (h0 : 0 ≤ q) (h1 : q ≤ 1) : clip01 q = q := by
  unfold clip01
  rw [max_eq_right h0, min_eq_right h1]

/-- npSet on the empty index list. -/
theorem npSet_nil {α : Type} (xs : List α) (v : α) : npSet xs [] v = xs := rfl

/-- npSet unfolds one index at a time. -/
theorem npSet_cons {α : Type} (xs : List α) (i : ℕ) (is : List ℕ) (v : α) :
    npSet xs (i :: is) v = npSet (xs.set i v) is v := rfl

/-- npSet preserves length. -/
theorem npSet_length {α : Type} (xs : List α) (idxs : List ℕ) (v : α) :
    (npSet xs idxs v).length = xs.length := by
  induction idxs generalizing xs with
  | nil => rfl
  | cons i is ih => rw [npSet_cons, ih, List.length_set]

/-- Pointwise description of npSet. -/
theorem npSet_getD {α : Type} (xs : List α) (idxs : List ℕ) (v : α) (i : ℕ) (d : α) :
    (npSet xs idxs v).getD i d =
      if i ∈ idxs ∧ i < xs.length then v else xs.getD i d := by
  induction idxs generalizing xs with
  | nil => simp [npSet_nil]
  | cons j js ih =>
    rw [npSet_cons, ih, List.length_set]
    by_cases hmem : i ∈ js ∧ i < xs.length
    · rw [if_pos hmem, if_pos ⟨List.mem_cons_of_mem _ hmem.1, hmem.2⟩]
    · rw [if_neg hmem]
      by_cases hij : i = j
      · subst hij
        by_cases hlen : i < xs.length
        · rw [if_pos ⟨List.mem_cons_self _ _, hlen⟩]
          simp [List.getD_eq_getElem?_getD, List.getElem?_set_self hlen]
        · rw [if_neg (fun h => hlen h.2)]
          rw [List.getD_eq_default _ _ (by rw [List.length_set]; omega),
              List.getD_eq_default _ _ (by omega)]
      · have hcond : ¬ (i ∈ j :: js ∧ i < xs.length) := by
          rintro ⟨hc, hl⟩
          rcases List.mem_cons.mp hc with h | h
          · exact hij h
          · exact hmem ⟨h, hl⟩
        rw [if_neg hcond]
        simp [List.getD_eq_getElem?_getD, List.getElem?_set_ne (fun h => hij h.symm)]

/-- getD of a mapped range, in range. -/
theorem getD_map_range {α : Type} (f : ℕ → α) (cd i : ℕ) (d : α) (h : i < cd) :
    ((List.range cd).map f).getD i d = f i := by
  simp [List.getD_eq_getElem?_getD, List.getElem?_map, List.getElem?_range, h]

/-- getD of a mapped range, out of range. -/
theorem getD_map_range_ge {α : Type} (f : ℕ → α) (cd i : ℕ) (d : α) (h : ¬ i < cd) :
    ((List.range cd).map f).getD i d = d := by
  rw [List.getD_eq_default]
  simpa using Nat.le_of_not_lt h

/-- getD of replicate, in range. -/
theorem getD_replicate {α : Type} (a d : α) (n i : ℕ) (h : i < n) :
    (List.replicate n a).getD i d = a := by
  simp [List.getD_eq_getElem?_getD, List.getElem?_replicate, h]

/-- Pointwise description of zipWith under getD, in range. -/
theorem zipWith_getD {α : Type} (f : α → α → α) (as bs : List α) (i : ℕ) (d : α)
    (h1 : i < as.length) (h2 : i < bs.length) :
    (List.zipWith f as bs).getD i d = f (as.getD i d) (bs.getD i d) := by
  induction as generalizing bs i with
  | nil => simp at h1
  | cons a at' ih =>
    cases bs with
    | nil => simp at h2
    | cons b bt =>
      cases i with
      | zero => simp [List.getD_cons_zero]
      | succ k =>
        simp only [List.zipWith_cons_cons, List.getD_cons_succ]
        exact ih bt k (by simpa using h1) (by simpa using h2)

/-- clip01 below the upper bound is just the lower clip. -/
theorem clip01_eq_max (q : ℚ) (h : q ≤ 1) : clip01 q = max 0 q :=
  min_eq_right (max_le (by norm_num) h)

/-- punishStep leaves rows other than its target unchanged. -/
theorem punishStep_getD_ne (updates : List ℚ) (segs : List (List ℚ)) (s k : ℕ)
    (h : k ≠ s) :
    (BasicTMCell.punishStep updates segs s).getD k [] = segs.getD k [] := by
  simp [BasicTMCell.punishStep, List.getD_eq_getElem?_getD,
    List.getElem?_set_ne (fun hh => h hh.symm)]

/-- punishStep preserves the number of segments. -/
theorem punishStep_length (updates : List ℚ) (segs : List (List ℚ)) (s : ℕ) :
    (BasicTMCell.punishStep updates segs s).length = segs.length := by
  simp [BasicTMCell.punishStep]

/-- The punish fold leaves rows outside the matching list unchanged. -/
theorem punishFold_getD_notMem (updates : List ℚ) (ms : List ℕ) (segs : List (List ℚ))
    (k : ℕ) (hk : k ∉ ms) :
    (ms.foldl (BasicTMCell.punishStep updates) segs).getD k [] = segs.getD k [] := by
  induction ms generalizing segs with
  | nil => rfl
  | cons m t ih =>
    simp only [List.foldl_cons]
    rw [ih _ (fun h => hk (List.mem_cons_of_mem _ h)),
        punishStep_getD_ne updates segs m k (fun h => hk (h ▸ List.mem_cons_self _ _))]

/-- On a duplicate-free matching list, the punish fold maps row k to the
clipped decrement of the original row k. -/
theorem punishFold_getD_mem (updates : List ℚ) (ms : List ℕ) (segs : List (List ℚ))
    (k : ℕ) (hnd : ms.Nodup) (hk : k ∈ ms) (hlt : k < segs.length) :
    (ms.foldl (BasicTMCell.punishStep updates) segs).getD k []
      = List.zipWith (fun p u => clip01 (p - u)) (segs.getD k []) updates := by
  induction ms generalizing segs with
  | nil => simp at hk
  | cons m t ih =>
    simp only [List.foldl_cons]
    rcases List.mem_cons.mp hk with he | ht
    · subst he
      rw [punishFold_getD_notMem updates t _ k (List.nodup_cons.mp hnd).1]
      simp [BasicTMCell.punishStep, List.getD_eq_getElem?_getD,
        List.getElem?_set_self hlt]
    · by_cases he : k = m
      · subst he
        exact absurd ht (List.nodup_cons.mp hnd).1
      · rw [ih _ (List.nodup_cons.mp hnd).2 ht (by rw [punishStep_length]; exact hlt),
          punishStep_getD_ne updates segs m k he]

/-- An in-range entry of a list is one of its members. -/
theorem getD_mem {α : Type} (l : List α) (i : ℕ) (d : α) (h : i < l.length) :
    l.getD i d ∈ l := by
  rw [List.getD_eq_getElem l d h]
  exact List.getElem_mem h

/-- getD of replicate with the replicated value as default. -/
theorem getD_replicate_self {α : Type} (a : α) (n i : ℕ) :
    (List.replicate n a).getD i a = a := by
  by_cases h : i < n
  · exact getD_replicate a a n i h
  · rw [List.getD_eq_default _ _ (by simpa using Nat.le_of_not_lt h)]

/-- C6: punishMatchingSegments never strengthens a synapse.  On any cell
state satisfying the data-model invariant (permanences in [0,1], segment
rows of region length n, cached matching list duplicate-free and in range)
and any permanenceDec ≥ 0: no permanence ends up strictly higher than
before the call; rows of non-matching segments are untouched; on matching
segments the prev-active targets become max 0 (old - permanenceDec) and
every other entry is unchanged. -/
theorem C6_punish_never_strengthens (n : ℕ) (st : BasicTMCell.CellState)
    (prev : List ℕ) (dec : ℚ)
    (hdec : 0 ≤ dec)
    (hseg : ∀ s ∈ st.segments, inUnit s)
    (hlen : ∀ s ∈ st.segments, s.length = n)
    (hnd : st.matchingSegments.Nodup)
    (hmb : ∀ s ∈ st.matchingSegments, s < st.segments.length) :
    (∀ k i, ((BasicTMCell.punishMatchingSegments n st prev dec).segments.getD k []).getD i 0
        ≤ (st.segments.getD k []).getD i 0)
  ∧ (∀ k, k ∉ st.matchingSegments →
      (BasicTMCell.punishMatchingSegments n st prev dec).segments.getD k []
        = st.segments.getD k [])
  ∧ (∀ k ∈ st.matchingSegments, ∀ i, i < n → i ∈ prev →
      ((BasicTMCell.punishMatchingSegments n st prev dec).segments.getD k []).getD i 0
        = max 0 ((st.segments.getD k []).getD i 0 - dec))
  ∧ (∀ k ∈ st.matchingSegments, ∀ i, i < n → i ∉ prev →
      ((BasicTMCell.punishMatchingSegments n st prev dec).segments.getD k []).getD i 0
        = (st.segments.getD k []).getD i 0) := by
  by_cases hm : st.matchingSegments.length > 0
  · have hpun : (BasicTMCell.punishMatchingSegments n st prev dec).segments
        = st.matchingSegments.foldl
            (BasicTMCell.punishStep (npSet (List.replicate n 0) prev dec)) st.segments := by
      unfold BasicTMCell.punishMatchingSegments
      rw [if_pos hm]
    have hulen : (npSet (List.replicate n (0:ℚ)) prev dec).length = n := by
      rw [npSet_length, List.length_replicate]
    have hu0 : ∀ i, 0 ≤ (npSet (List.replicate n (0:ℚ)) prev dec).getD i 0 := by
      intro i
      rw [npSet_getD]
      split
      · exact hdec
      · rw [getD_replicate_self]
    have humem : ∀ i, i < n → i ∈ prev →
        (npSet (List.replicate n (0:ℚ)) prev dec).getD i 0 = dec := by
      intro i hi hp
      rw [npSet_getD, if_pos ⟨hp, by rw [List.length_replicate]; exact hi⟩]
    have hunot : ∀ i, i ∉ prev →
        (npSet (List.replicate n (0:ℚ)) prev dec).getD i 0 = 0 := by
      intro i hp
      rw [npSet_getD, if_neg (fun h => hp h.1), getD_replicate_self]
    have hrowfacts : ∀ k, k ∈ st.matchingSegments →
        (st.segments.getD k []).length = n ∧ inUnit (st.segments.getD k []) := by
      intro k hk
      have hkl := hmb k hk
      have hmem := getD_mem st.segments k [] hkl
      exact ⟨hlen _ hmem, hseg _ hmem⟩
    refine ⟨?_, ?_, ?_, ?_⟩
    · intro k i
      by_cases hk : k ∈ st.matchingSegments
      · rw [hpun, punishFold_getD_mem _ _ _ _ hnd hk (hmb k hk)]
        obtain ⟨hrl, hru⟩ := hrowfacts k hk
        by_cases hi : i < n
        · rw [zipWith_getD _ _ _ _ _ (by rw [hrl]; exact hi) (by rw [hulen]; exact hi)]
          refine clip01_le _ _ (sub_le_self _ (hu0 i)) ?_
          exact (hru _ (getD_mem _ i 0 (by rw [hrl]; exact hi))).1
        · rw [List.getD_eq_default _ _ (by rw [List.length_zipWith, hrl, hulen]; omega),
              List.getD_eq_default _ _ (by rw [hrl]; omega)]
      · rw [hpun, punishFold_getD_notMem _ _ _ _ hk]
    · intro k hk
      rw [hpun, punishFold_getD_notMem _ _ _ _ hk]
    · intro k hk i hi hp
      rw [hpun, punishFold_getD_mem _ _ _ _ hnd hk (hmb k hk)]
      obtain ⟨hrl, hru⟩ := hrowfacts k hk
      rw [zipWith_getD _ _ _ _ _ (by rw [hrl]; exact hi) (by rw [hulen]; exact hi), humem i hi hp]
      refine clip01_eq_max _ ?_
      exact le_trans (sub_le_self _ hdec) (hru _ (getD_mem _ i 0 (by rw [hrl]; exact hi))).2
    · intro k hk i hi hp
      rw [hpun, punishFold_getD_mem _ _ _ _ hnd hk (hmb k hk)]
      obtain ⟨hrl, hru⟩ := hrowfacts k hk
      rw [zipWith_getD _ _ _ _ _ (by rw [hrl]; exact hi) (by rw [hulen]; exact hi), hunot i hp, sub_zero]
      exact clip01_of_unit _ (hru _ (getD_mem _ i 0 (by rw [hrl]; exact hi))).1
        (hru _ (getD_mem _ i 0 (by rw [hrl]; exact hi))).2
  · have hpun : BasicTMCell.punishMatchingSegments n st prev dec = st := by
      unfold BasicTMCell.punishMatchingSegments
      rw [if_neg hm]
    have hms : st.matchingSegments = [] := List.length_eq_zero.mp (by omega)
    refine ⟨fun k i => by rw [hpun], fun k _ => by rw [hpun], ?_, ?_⟩
    · intro k hk
      rw [hms] at hk
      simp at hk
    · intro k hk
      rw [hms] at hk
      simp at hk

/-- C6 witness: on the concrete cell with one matching segment [1/2, 1/2],
punishing toward prevActiveCells = [0] with permanenceDec = 1/10 yields
max 0 (1/2 - 1/10) at the targeted synapse. -/
theorem C6_punish_never_strengthens_witness :
    ((BasicTMCell.punishMatchingSegments 2 ⟨[[1/2, 1/2]], [], [0]⟩ [0]
        (1/10)).segments.getD 0 []).getD 0 0
      = max 0 ((((⟨[[1/2, 1/2]], [], [0]⟩ : BasicTMCell.CellState).segments.getD 0 []).getD 0 0)
          - 1/10) :=
  (C6_punish_never_strengthens 2 ⟨[[1/2, 1/2]], [], [0]⟩ [0] (1/10)
    (by norm_num)
    (by intro s hs; rw [List.mem_singleton] at hs; subst hs
        intro x hx; rcases List.mem_pair.mp hx with h | h <;> subst h <;> norm_num)
    (by intro s hs; rw [List.mem_singleton] at hs; subst hs; rfl)
    (by simp)
    (by intro s hs; rw [List.mem_singleton] at hs; subst hs; simp)).2.2.1
    0 (by simp) 0 (by norm_num) (by simp)

/-- Elements of a zipWith whose function always yields a clipped value lie
in the unit interval. -/
theorem inUnit_zipWith_clip (g : ℚ → ℚ → ℚ) (as bs : List ℚ)
    (hg : ∀ a b, ∃ q, g a b = clip01 q) : inUnit (List.zipWith g as bs) := by
  induction as generalizing bs with
  | nil => intro x hx; simp at hx
  | cons a at' ih =>
    intro x hx
    cases bs with
    | nil => simp at hx
    | cons b bt =>
      rw [List.zipWith_cons_cons] at hx
      rcases List.mem_cons.mp hx with hx | hx
      · obtain ⟨q, hq⟩ := hg a b
        rw [hx, hq]
        exact ⟨clip01_nonneg q, clip01_le_one q⟩
      · exact ih bt x hx

/-- A fold of single-position writes of a value v preserves any predicate
holding of v and of every base element. -/
theorem foldSet_pred {α : Type} (P : α → Prop) (v : α) (f : ℕ → ℕ) (l : List ℕ)
    (base : List α) (hv : P v) (hb : ∀ x ∈ base, P x) :
    ∀ x ∈ l.foldl (fun a i => a.set (f i) v) base, P x := by
  induction l generalizing base with
  | nil => exact hb
  | cons i t ih =>
    simp only [List.foldl_cons]
    refine ih _ ?_
    intro x hx
    rcases List.mem_or_eq_of_mem_set hx with hx | hx
    · exact hb x hx
    · exact hx ▸ hv

/-- adaptSegment keeps all segment rows inside the unit interval. -/
theorem adaptSegment_ok_inUnit (n : ℕ) (st : BasicTMCell.CellState) (segment : ℕ)
    (prev : List ℕ) (maxNew : ℕ) (ip inc dec : ℚ) (rng : Rng)
    (out : BasicTMCell.CellState × Rng)
    (h : BasicTMCell.adaptSegment n st segment prev maxNew ip inc dec rng = Except.ok out)
    (hseg : ∀ s ∈ st.segments, inUnit s) :
    ∀ s ∈ out.1.segments, inUnit s := by
  simp only [BasicTMCell.adaptSegment] at h
  have key : ∀ (newSeg : List ℚ),
      (∃ as bs, newSeg = List.zipWith (fun p u => clip01 (p + u)) as bs) →
      ∀ (r : Rng),
      (Except.ok ({ st with segments := st.segments.set segment newSeg }, r)
        : Except String (BasicTMCell.CellState × Rng)) = Except.ok out →
      ∀ s ∈ out.1.segments, inUnit s := by
    intro newSeg hex r hr
    rw [Except.ok.injEq] at hr
    rw [← hr]
    intro s hs
    rcases List.mem_or_eq_of_mem_set hs with hs | hs
    · exact hseg s hs
    · obtain ⟨as, bs, hab⟩ := hex
      subst hs
      exact hab ▸ inUnit_zipWith_clip _ as bs (fun a b => ⟨a + b, rfl⟩)
  split at h
  · split at h
    · exact absurd h (by simp)
    · exact key _ ⟨_, _, rfl⟩ rng h
  · exact key _ ⟨_, _, rfl⟩ rng h

/-- The punish fold keeps all rows inside the unit interval. -/
theorem punishFold_inUnit (updates : List ℚ) (ms : List ℕ) (segs : List (List ℚ))
    (hseg : ∀ s ∈ segs, inUnit s) :
    ∀ s ∈ ms.foldl (BasicTMCell.punishStep updates) segs, inUnit s := by
  induction ms generalizing segs with
  | nil => exact hseg
  | cons m t ih =>
    simp only [List.foldl_cons]
    refine ih _ ?_
    intro s hs
    simp only [BasicTMCell.punishStep] at hs
    rcases List.mem_or_eq_of_mem_set hs with hs | hs
    · exact hseg s hs
    · exact hs ▸ inUnit_zipWith_clip _ _ _ (fun a b => ⟨a - b, rfl⟩)

/-- punishMatchingSegments keeps all rows inside the unit interval. -/
theorem punish_inUnit (n : ℕ) (st : BasicTMCell.CellState) (prev : List ℕ) (dec : ℚ)
    (hseg : ∀ s ∈ st.segments, inUnit s) :
    ∀ s ∈ (BasicTMCell.punishMatchingSegments n st prev dec).segments, inUnit s := by
  unfold BasicTMCell.punishMatchingSegments
  split
  · exact punishFold_inUnit _ _ _ hseg
  · exact hseg

/-- createSegment keeps all rows inside the unit interval when
initialPermanence is. -/
theorem createSegment_inUnit (n : ℕ) (st : BasicTMCell.CellState) (maxNew : ℕ)
    (prevW : List ℕ) (ip : ℚ) (rng : Rng)
    (hseg : ∀ s ∈ st.segments, inUnit s) (hip0 : 0 ≤ ip) (hip1 : ip ≤ 1) :
    ∀ s ∈ (BasicTMCell.createSegment n st maxNew prevW ip rng).1.segments, inUnit s := by
  intro s hs
  simp only [BasicTMCell.createSegment] at hs
  split at hs
  · rcases List.mem_append.mp hs with hs | hs
    · exact hseg s hs
    · rw [List.mem_singleton] at hs
      subst hs
      intro x hx
      refine foldSet_pred (fun y => 0 ≤ y ∧ y ≤ 1) ip _ _ _ ⟨hip0, hip1⟩ ?_ x hx
      intro y hy
      rw [List.eq_of_mem_replicate hy]
      norm_num
  · exact hseg s hs

/-- Whole-row assignment preserves the unit interval. -/
theorem setRowQ_inUnit (d2 : ℕ) (v : ℚ) (sg : List ℚ) (row : ℕ)
    (hsg : inUnit sg) (hv0 : 0 ≤ v) (hv1 : v ≤ 1) :
    inUnit (BasicTMCell.setRowQ d2 v sg row) := by
  intro x hx
  exact foldSet_pred (fun y => 0 ≤ y ∧ y ≤ 1) v _ _ _ ⟨hv0, hv1⟩ hsg x hx

/-- The addSynapses write loop keeps the written segment inside the unit
interval. -/
theorem synWriteFold_ok_inUnit (d1 d2 : ℕ) (v : ℚ) (shuffled : List (ℕ × ℕ × ℕ))
    (l : List ℕ) (acc : Except String (List ℚ)) (sg : List ℚ)
    (hacc : ∀ s0, acc = Except.ok s0 → inUnit s0) (hv0 : 0 ≤ v) (hv1 : v ≤ 1)
    (h : l.foldl (BasicTMCell.synWriteStep d1 d2 v shuffled) acc = Except.ok sg) :
    inUnit sg := by
  induction l generalizing acc with
  | nil => exact hacc sg h
  | cons i t ih =>
    simp only [List.foldl_cons] at h
    refine ih _ ?_ h
    intro s0 hs0
    unfold BasicTMCell.synWriteStep at hs0
    cases acc with
    | error e => simp at hs0
    | ok sg1 =>
      have hsg1 := hacc sg1 rfl
      cases hget : shuffled.get? i with
      | none => rw [hget] at hs0; simp at hs0
      | some trip =>
        obtain ⟨s, r, c⟩ := trip
        rw [hget] at hs0
        simp only at hs0
        split at hs0
        · rw [Except.ok.injEq] at hs0
          rw [← hs0]
          exact setRowQ_inUnit _ _ _ _
            (setRowQ_inUnit _ _ _ _ (setRowQ_inUnit _ _ _ _ hsg1 hv0 hv1) hv0 hv1) hv0 hv1
        · simp at hs0

/-- Any row read by getD is in the unit interval when all rows are (out of
range it is the empty row). -/
theorem getD_row_inUnit (segs : List (List ℚ)) (k : ℕ)
    (hseg : ∀ s ∈ segs, inUnit s) : inUnit (segs.getD k []) := by
  by_cases hk : k < segs.length
  · exact hseg _ (getD_mem segs k [] hk)
  · rw [List.getD_eq_default _ _ (Nat.le_of_not_lt hk)]
    intro x hx
    simp at hx

/-- addSynapses keeps all segment rows inside the unit interval. -/
theorem addSynapses_ok_inUnit (d1 d2 : ℕ) (st : BasicTMCell.CellState) (segment : ℕ)
    (prev : List ℕ) (maxNew : ℕ) (ip : ℚ) (rng : Rng)
    (out : BasicTMCell.CellState × Rng)
    (h : BasicTMCell.addSynapses d1 d2 st segment prev maxNew ip rng = Except.ok out)
    (hseg : ∀ s ∈ st.segments, inUnit s) (hip0 : 0 ≤ ip) (hip1 : ip ≤ 1) :
    ∀ s ∈ out.1.segments, inUnit s := by
  simp only [BasicTMCell.addSynapses] at h
  split at h
  · exact absurd h (by simp)
  · split at h
    · split at h
      · exact absurd h (by simp)
      · split at h
        · split at h
          · exact absurd h (by simp)
          · rename_i sg hseq
            rw [Except.ok.injEq] at h
            rw [← h]
            intro s hs
            rcases List.mem_or_eq_of_mem_set hs with hs | hs
            · exact hseg s hs
            · subst hs
              refine synWriteFold_ok_inUnit _ _ _ _ _ _ _ ?_ hip0 hip1 hseq
              intro s0 hs0
              rw [Except.ok.injEq] at hs0
              rw [← hs0]
              exact getD_row_inUnit _ _ hseg
        · rw [Except.ok.injEq] at h
          rw [← h]
          exact hseg
    · rw [Except.ok.injEq] at h
      rw [← h]
      exact hseg

/-- The adaptActiveSegments fold keeps all segment rows inside the unit
interval. -/
theorem adaptActiveFold_ok_inUnit (d1 d2 : ℕ) (updates : List ℚ) (prevW : List ℕ)
    (maxNew : ℕ) (ip : ℚ) (l : List ℕ)
    (acc : Except String (BasicTMCell.CellState × Rng)) (out : BasicTMCell.CellState × Rng)
    (hacc : ∀ c r, acc = Except.ok (c, r) → ∀ s ∈ c.segments, inUnit s)
    (hip0 : 0 ≤ ip) (hip1 : ip ≤ 1)
    (h : l.foldl (BasicTMCell.adaptActiveStep d1 d2 updates prevW maxNew ip) acc
      = Except.ok out) :
    ∀ s ∈ out.1.segments, inUnit s := by
  induction l generalizing acc with
  | nil => exact hacc out.1 out.2 h
  | cons i t ih =>
    simp only [List.foldl_cons] at h
    refine ih _ ?_ h
    intro c r hcr
    unfold BasicTMCell.adaptActiveStep at hcr
    cases acc with
    | error e => simp at hcr
    | ok p =>
      obtain ⟨cst, r0⟩ := p
      have hcst := hacc cst r0 rfl
      simp only at hcr
      refine addSynapses_ok_inUnit _ _ _ _ _ _ _ _ _ hcr ?_ hip0 hip1
      intro s hs
      rcases List.mem_or_eq_of_mem_set hs with hs | hs
      · exact hcst s hs
      · subst hs
        exact inUnit_zipWith_clip _ _ _ (fun a b => ⟨a + b, rfl⟩)

/-- adaptActiveSegments keeps all segment rows inside the unit interval. -/
theorem adaptActiveSegments_ok_inUnit (d1 d2 : ℕ) (st : BasicTMCell.CellState)
    (prevA : List ℕ) (maxNew : ℕ) (prevW : List ℕ) (ip inc dec : ℚ) (rng : Rng)
    (out : BasicTMCell.CellState × Rng)
    (h : BasicTMCell.adaptActiveSegments d1 d2 st prevA maxNew prevW ip inc dec rng
      = Except.ok out)
    (hseg : ∀ s ∈ st.segments, inUnit s) (hip0 : 0 ≤ ip) (hip1 : ip ≤ 1) :
    ∀ s ∈ out.1.segments, inUnit s := by
  simp only [BasicTMCell.adaptActiveSegments] at h
  split at h
  · refine adaptActiveFold_ok_inUnit _ _ _ _ _ _ _ _ _ ?_ hip0 hip1 h
    intro c r hcr
    rw [Except.ok.injEq, Prod.mk.injEq] at hcr
    rw [← hcr.1]
    exact hseg
  · rw [Except.ok.injEq] at h
    rw [← h]
    exact hseg

/-- A row-rewriting fold leaves rows outside its index list unchanged. -/
theorem spFold_notMem (g : List (List ℚ) → ℕ → List ℚ) (l : List ℕ)
    (pm0 : List (List ℚ)) (c : ℕ) (hc : c ∉ l) :
    (l.foldl (fun pm k => pm.set k (g pm k)) pm0).getD c [] = pm0.getD c [] := by
  induction l generalizing pm0 with
  | nil => rfl
  | cons c0 t ih =>
    simp only [List.foldl_cons]
    rw [ih _ (fun h => hc (List.mem_cons_of_mem _ h)),
      List.getD_eq_getElem?_getD,
      List.getElem?_set_ne (fun h => hc (by rw [← h]; exact List.mem_cons_self _ _)),
      List.getD_eq_getElem?_getD]

/-- After a row-rewriting fold whose new rows always lie in the unit
interval, every row at a written index lies in the unit interval. -/
theorem spFold_selected (g : List (List ℚ) → ℕ → List ℚ)
    (hg : ∀ pm c, inUnit (g pm c)) (l : List ℕ) (pm0 : List (List ℚ)) :
    ∀ c ∈ l, inUnit ((l.foldl (fun pm k => pm.set k (g pm k)) pm0).getD c []) := by
  induction l generalizing pm0 with
  | nil => intro c hc; simp at hc
  | cons c0 t ih =>
    intro c hc
    simp only [List.foldl_cons]
    by_cases hct : c ∈ t
    · exact ih _ c hct
    · have hc0 : c = c0 := by
        rcases List.mem_cons.mp hc with h | h
        · exact h
        · exact absurd h hct
      subst hc0
      rw [spFold_notMem g t _ c hct]
      by_cases hlt : c < pm0.length
      · rw [List.getD_eq_getElem?_getD, List.getElem?_set_self hlt]
        exact hg pm0 c
      · rw [List.getD_eq_default _ _ (by rw [List.length_set]; exact Nat.le_of_not_lt hlt)]
        intro x hx
        simp at hx

/-- compute with learning leaves every selected column's row in [0, 1]. -/
theorem spCompute_learn_selected_inUnit (st : SpatialPooler.SPState) (input : List ℚ)
    (cols : List ℕ) (st' : SpatialPooler.SPState)
    (h : SpatialPooler.compute st (NpInput.arr input) true false
      = Except.ok (SpatialPooler.SPResult.idxs cols, st')) :
    ∀ c ∈ cols, inUnit (st'.permanences.getD c []) := by
  simp only [SpatialPooler.compute, if_true, if_false, Bool.false_eq_true] at h
  split at h
  · exact absurd h (by simp)
  · rw [Except.ok.injEq, Prod.mk.injEq, SpatialPooler.SPResult.idxs.injEq] at h
    obtain ⟨hcols, hst⟩ := h
    rw [← hst]
    intro c hc
    rw [← hcols] at hc
    refine spFold_selected _ ?_ _ _ c hc
    intro pm k
    intro x hx
    rcases List.mem_map.mp hx with ⟨j, hj, hxj⟩
    rw [← hxj]
    exact ⟨clip01_nonneg _, clip01_le_one _⟩

/-- C2 (amended): every mutation clips the permanences it touches.  For
cells whose segment rows lie in [0, 1]: adaptSegment and
punishMatchingSegments keep every row in [0, 1]; createSegment and
adaptActiveSegments (when it completes) do too provided initialPermanence
lies in [0, 1]; and SpatialPooler.compute with learning clips every
selected column's row into [0, 1].  (Immediately after SpatialPooler
construction the claim fails: the init draws are unclipped.) -/
theorem C2_mutations_clip :
    (∀ (n : ℕ) (st : BasicTMCell.CellState) (segment : ℕ) (prev : List ℕ)
        (maxNew : ℕ) (ip inc dec : ℚ) (rng : Rng) (out : BasicTMCell.CellState × Rng),
      BasicTMCell.adaptSegment n st segment prev maxNew ip inc dec rng = Except.ok out →
      (∀ s ∈ st.segments, inUnit s) → ∀ s ∈ out.1.segments, inUnit s)
  ∧ (∀ (n : ℕ) (st : BasicTMCell.CellState) (prev : List ℕ) (dec : ℚ),
      (∀ s ∈ st.segments, inUnit s) →
      ∀ s ∈ (BasicTMCell.punishMatchingSegments n st prev dec).segments, inUnit s)
  ∧ (∀ (n : ℕ) (st : BasicTMCell.CellState) (maxNew : ℕ) (prevW : List ℕ)
        (ip : ℚ) (rng : Rng),
      (∀ s ∈ st.segments, inUnit s) → 0 ≤ ip → ip ≤ 1 →
      ∀ s ∈ (BasicTMCell.createSegment n st maxNew prevW ip rng).1.segments, inUnit s)
  ∧ (∀ (d1 d2 : ℕ) (st : BasicTMCell.CellState) (prevA : List ℕ) (maxNew : ℕ)
        (prevW : List ℕ) (ip inc dec : ℚ) (rng : Rng) (out : BasicTMCell.CellState × Rng),
      BasicTMCell.adaptActiveSegments d1 d2 st prevA maxNew prevW ip inc dec rng
        = Except.ok out →
      (∀ s ∈ st.segments, inUnit s) → 0 ≤ ip → ip ≤ 1 →
      ∀ s ∈ out.1.segments, inUnit s)
  ∧ (∀ (st : SpatialPooler.SPState) (input : List ℚ) (cols : List ℕ)
        (st' : SpatialPooler.SPState),
      SpatialPooler.compute st (NpInput.arr input) true false
        = Except.ok (SpatialPooler.SPResult.idxs cols, st') →
      ∀ c ∈ cols, inUnit (st'.permanences.getD c [])) := by
  refine ⟨?_, ?_, ?_, ?_, ?_⟩
  · intro n st segment prev maxNew ip inc dec rng out h hseg
    exact adaptSegment_ok_inUnit n st segment prev maxNew ip inc dec rng out h hseg
  · intro n st prev dec hseg
    exact punish_inUnit n st prev dec hseg
  · intro n st maxNew prevW ip rng hseg hip0 hip1
    exact createSegment_inUnit n st maxNew prevW ip rng hseg hip0 hip1
  · intro d1 d2 st prevA maxNew prevW ip inc dec rng out h hseg hip0 hip1
    exact adaptActiveSegments_ok_inUnit d1 d2 st prevA maxNew prevW ip inc dec rng out
      h hseg hip0 hip1
  · intro st input cols st' h
    exact spCompute_learn_selected_inUnit st input cols st' h

/-- C2 witness: punishing the concrete matching segment [1/2, 1/2] with the
large decrement 5 clips at 0 and the resulting row stays inside [0, 1]. -/
theorem C2_mutations_clip_witness :
    inUnit ((BasicTMCell.punishMatchingSegments 2 ⟨[[1/2, 1/2]], [], [0]⟩ [0]
      5).segments.getD 0 []) := by
  have hseg : ∀ s ∈ ((⟨[[1/2, 1/2]], [], [0]⟩ : BasicTMCell.CellState)).segments, inUnit s := by
    intro s hs
    rw [List.mem_singleton] at hs
    subst hs
    intro x hx
    rcases List.mem_pair.mp hx with h | h <;> subst h <;> norm_num
  exact C2_mutations_clip.2.1 2 ⟨[[1/2, 1/2]], [], [0]⟩ [0] 5 hseg _
    (getD_mem _ 0 [] (by with_unfolding_all decide))

/-- C8 (amended): compute raises exactly on non-arrays (TypeError) and on
arrays whose size differs from inputDim (ValueError); element values are
never checked, and on every array of the right size compute succeeds. -/
theorem C8_validation_exact (st : SpatialPooler.SPState) (learn asarray : Bool) :
    (∀ xs : List ℚ, xs.length = st.inputDim →
      ∃ r, SpatialPooler.compute st (NpInput.arr xs) learn asarray = Except.ok r)
  ∧ (∀ xs : List ℚ, xs.length ≠ st.inputDim →
      SpatialPooler.compute st (NpInput.arr xs) learn asarray
        = Except.error "ValueError: Input dimensions do not match")
  ∧ (SpatialPooler.compute st NpInput.notArray learn asarray
      = Except.error "TypeError: Input must be a numpy array") := by
  refine ⟨?_, ?_, rfl⟩
  · intro xs hlen
    simp only [SpatialPooler.compute]
    rw [if_neg (by omega)]
    exact ⟨_, rfl⟩
  · intro xs hlen
    simp only [SpatialPooler.compute]
    rw [if_pos hlen]

/-- C8 witness: an array of the wrong length is rejected with the
ValueError on the concrete pooler spC8 (inputDim = 2). -/
theorem C8_validation_exact_witness :
    SpatialPooler.compute spC8 (NpInput.arr [1, 2, 3]) false false
      = Except.error "ValueError: Input dimensions do not match" :=
  (C8_validation_exact spC8 false false).2.1 [1, 2, 3] (by with_unfolding_all decide)

/-- C9 (amended): with draw rows of the declared length, a column's
potential mask is set exactly at the drawn indices (drawn WITH replacement)
and zero elsewhere; hence the pool has at most numPotentials distinct
indices. -/
theorem C9_pool_characterization (inputDim columnDim numActiveCols : ℕ)
    (pot_pct minP aInc iDec : ℚ) (bitDraws : List (List ℕ)) (permDraws : List (List ℚ))
    (i : ℕ) (hi : i < columnDim)
    (hlen : (bitDraws.getD i []).length = SpatialPooler.numPotentials pot_pct inputDim) :
    (∀ j, j < inputDim →
      (((SpatialPooler.init inputDim columnDim numActiveCols pot_pct minP aInc iDec
          bitDraws permDraws).potentials.getD i []).getD j 0 = 1
        ↔ j ∈ bitDraws.getD i []))
  ∧ (∀ j, j < inputDim → j ∉ bitDraws.getD i [] →
      (((SpatialPooler.init inputDim columnDim numActiveCols pot_pct minP aInc iDec
          bitDraws permDraws).potentials.getD i []).getD j 0 = 0))
  ∧ (bitDraws.getD i []).dedup.length ≤ SpatialPooler.numPotentials pot_pct inputDim := by
  have hpot : (SpatialPooler.init inputDim columnDim numActiveCols pot_pct minP aInc iDec
      bitDraws permDraws).potentials.getD i []
      = npSet (List.replicate inputDim (0 : ℕ)) (bitDraws.getD i []) 1 := by
    simp only [SpatialPooler.init, List.map_map]
    exact getD_map_range _ _ _ _ hi
  refine ⟨?_, ?_, ?_⟩
  · intro j hj
    rw [hpot, npSet_getD]
    constructor
    · intro h1
      by_contra hj2
      rw [if_neg (fun hh => hj2 hh.1), getD_replicate_self] at h1
      exact absurd h1 (by norm_num)
    · intro hj2
      rw [if_pos ⟨hj2, by rw [List.length_replicate]; exact hj⟩]
  · intro j hj hj2
    rw [hpot, npSet_getD, if_neg (fun hh => hj2 hh.1), getD_replicate_self]
  · rw [← hlen]
    exact List.Sublist.length_le (List.dedup_sublist _)

/-- C9 witness: on the concrete construction with draw row [0, 0]
(inputDim 4, numPotentials 2), input bit 0 is in the pool. -/
theorem C9_pool_characterization_witness :
    ((SpatialPooler.init 4 1 1 (1/2) (1/2) (1/10) (1/10)
      [[0, 0]] [[-1/10, 3/10]]).potentials.getD 0 []).getD 0 0 = 1
    ↔ (0 : ℕ) ∈ (([[0, 0]] : List (List ℕ)).getD 0 []) :=
  (C9_pool_characterization 4 1 1 (1/2) (1/2) (1/10) (1/10) [[0, 0]] [[-1/10, 3/10]]
    0 (by norm_num) (by with_unfolding_all decide)).1 0 (by norm_num)

/-- Membership in flatNonzeroB: exactly the row-major flat indices of true
entries. -/
theorem flatNonzeroB_mem (width : ℕ) (m : List (List Bool)) (k : ℕ) :
    k ∈ TemporalMemory.flatNonzeroB width m ↔
      ∃ i, i < m.length ∧ ∃ j, j < width ∧
        (m.getD i []).getD j false = true ∧ k = i * width + j := by
  unfold TemporalMemory.flatNonzeroB
  rw [List.mem_flatMap]
  constructor
  · rintro ⟨i, hi, hk⟩
    rw [List.mem_range] at hi
    rw [List.mem_filterMap] at hk
    obtain ⟨j, hj, hjk⟩ := hk
    rw [List.mem_range] at hj
    by_cases hb : (m.getD i []).getD j false = true
    · rw [if_pos hb] at hjk
      rw [Option.some.injEq] at hjk
      exact ⟨i, hi, j, hj, hb, hjk.symm⟩
    · rw [if_neg hb] at hjk
      exact absurd hjk (by simp)
  · rintro ⟨i, hi, j, hj, hb, rfl⟩
    refine ⟨i, List.mem_range.mpr hi, ?_⟩
    rw [List.mem_filterMap]
    exact ⟨j, List.mem_range.mpr hj, by rw [if_pos hb]⟩

/-- np.argmax stays inside a nonempty list. -/
theorem argmaxN_lt (xs : List ℕ) (h : 0 < xs.length) : argmaxN xs < xs.length := by
  unfold argmaxN
  have key : ∀ (l : List ℕ) (acc : ℕ), acc < xs.length → (∀ i ∈ l, i < xs.length) →
      l.foldl (fun best i => if xs.getD best 0 < xs.getD i 0 then i else best) acc
        < xs.length := by
    intro l
    induction l with
    | nil => intro acc ha _; exact ha
    | cons i t ih =>
      intro acc ha hl
      simp only [List.foldl_cons]
      refine ih _ ?_ (fun x hx => hl x (List.mem_cons_of_mem _ hx))
      split
      · exact hl i (List.mem_cons_self _ _)
      · exact ha
  exact key _ 0 h (fun i hi => List.mem_range.mp hi)

/-- np.argmin stays inside a nonempty list. -/
theorem argminN_lt (xs : List ℕ) (h : 0 < xs.length) : argminN xs < xs.length := by
  unfold argminN
  have key : ∀ (l : List ℕ) (acc : ℕ), acc < xs.length → (∀ i ∈ l, i < xs.length) →
      l.foldl (fun best i => if xs.getD i 0 < xs.getD best 0 then i else best) acc
        < xs.length := by
    intro l
    induction l with
    | nil => intro acc ha _; exact ha
    | cons i t ih =>
      intro acc ha hl
      simp only [List.foldl_cons]
      refine ih _ ?_ (fun x hx => hl x (List.mem_cons_of_mem _ hx))
      split
      · exact hl i (List.mem_cons_self _ _)
      · exact ha
  exact key _ 0 h (fun i hi => List.mem_range.mp hi)

/-- A successful winnerStep returns a winner index below cellsPerColumn. -/
theorem winnerStep_w_lt (p : TemporalMemory.TMParams) (cells : TemporalMemory.Cells)
    (newActive prevWinner : List ℕ) (learn : Bool) (column : ℕ) (rng : Rng)
    (cells' : TemporalMemory.Cells) (w : ℕ) (rng' : Rng)
    (h : TemporalMemory.winnerStep p cells newActive prevWinner learn column rng
      = Except.ok (cells', w, rng')) :
    w < p.cellsPerColumn := by
  simp only [TemporalMemory.winnerStep] at h
  split at h
  · exact absurd h (by simp)
  · rename_i hcpc
    have hpos : 0 < p.cellsPerColumn := Nat.pos_of_ne_zero hcpc
    split at h
    · split at h
      · split at h
        · exact absurd h (by simp)
        · simp only [Except.ok.injEq, Prod.mk.injEq] at h
          obtain ⟨-, hw, -⟩ := h
          rw [← hw]
          have harg := argmaxN_lt (((List.range p.cellsPerColumn).map
            (fun j => BasicTMCell.getActivePotentials (p.columnDim * p.cellsPerColumn)
              (TemporalMemory.cellAt cells column j) newActive)).map
                (fun l => l.foldl max 0)) (by simpa using hpos)
          simpa using harg
      · simp only [Except.ok.injEq, Prod.mk.injEq] at h
        obtain ⟨-, hw, -⟩ := h
        rw [← hw]
        have harg := argmaxN_lt (((List.range p.cellsPerColumn).map
          (fun j => BasicTMCell.getActivePotentials (p.columnDim * p.cellsPerColumn)
            (TemporalMemory.cellAt cells column j) newActive)).map
              (fun l => l.foldl max 0)) (by simpa using hpos)
        simpa using harg
    · split at h
      · simp only [Except.ok.injEq, Prod.mk.injEq] at h
        obtain ⟨-, hw, -⟩ := h
        rw [← hw]
        have harg := argminN_lt ((List.range p.cellsPerColumn).map
          (fun j => (TemporalMemory.cellAt cells column j).segments.length))
          (by simpa using hpos)
        simpa using harg
      · simp only [Except.ok.injEq, Prod.mk.injEq] at h
        obtain ⟨-, hw, -⟩ := h
        rw [← hw]
        have harg := argminN_lt ((List.range p.cellsPerColumn).map
          (fun j => (TemporalMemory.cellAt cells column j).segments.length))
          (by simpa using hpos)
        simpa using harg

/-- Every index a successful goWinner run appends comes from the
accumulator or is column * cellsPerColumn + winner for a bursting column
and a winner below cellsPerColumn. -/
theorem goWinner_extra (p : TemporalMemory.TMParams) (newActive prevWinner : List ℕ)
    (learn : Bool) (bursting : List ℕ) (cells : TemporalMemory.Cells) (acc : List ℕ)
    (rng : Rng) (cells1 : TemporalMemory.Cells) (extra : List ℕ) (rng1 : Rng)
    (h : TemporalMemory.goWinner p newActive prevWinner learn bursting cells acc rng
      = Except.ok (cells1, extra, rng1)) :
    ∀ x ∈ extra, x ∈ acc ∨
      ∃ c v, c ∈ bursting ∧ v < p.cellsPerColumn ∧ x = c * p.cellsPerColumn + v := by
  induction bursting generalizing cells acc rng with
  | nil =>
    simp only [TemporalMemory.goWinner] at h
    simp only [Except.ok.injEq, Prod.mk.injEq] at h
    obtain ⟨-, he, -⟩ := h
    intro x hx
    rw [← he] at hx
    exact Or.inl hx
  | cons c t ih =>
    simp only [TemporalMemory.goWinner] at h
    split at h
    · exact absurd h (by simp)
    · rename_i cells2 w rng2 heq
      intro x hx
      rcases ih _ _ _ h x hx with hx2 | ⟨c2, v2, hc2, hv2, hx2⟩
      · rcases List.mem_append.mp hx2 with hx3 | hx3
        · exact Or.inl hx3
        · rw [List.mem_singleton] at hx3
          exact Or.inr ⟨c, w, List.mem_cons_self _ _,
            winnerStep_w_lt p cells newActive prevWinner learn c rng cells2 w rng2 heq, hx3⟩
      · exact Or.inr ⟨c2, v2, List.mem_cons_of_mem _ hc2, hv2, hx2⟩

/-- Facts extracted from a successful tmPhase1 run: every bursting index is
a valid column, the pre-burst winners are the flat indices of the
predicted-active matrix, and the new active cells are the flat indices of
that matrix after setting every bursting column's row to all-true. -/
theorem tmPhase1_ok_facts (p : TemporalMemory.TMParams) (st : TemporalMemory.TMState)
    (cols : List ℕ) (pre : TemporalMemory.TMPre)
    (h : TemporalMemory.tmPhase1 p st cols = Except.ok pre) :
    (∀ c ∈ pre.bursting, c < p.columnDim)
  ∧ pre.winners0 = TemporalMemory.flatNonzeroB p.cellsPerColumn (paMatrix p st cols)
  ∧ pre.newActive = TemporalMemory.flatNonzeroB p.cellsPerColumn
      (npSet (paMatrix p st cols) pre.bursting (List.replicate p.cellsPerColumn true)) := by
  simp only [TemporalMemory.tmPhase1] at h
  split at h
  · exact absurd h (by simp)
  · split at h
    · exact absurd h (by simp)
    · split at h
      · exact absurd h (by simp)
      · rename_i bursting hwhere
        split at h
        · exact absurd h (by simp)
        · rename_i hball
          rw [not_not] at hball
          rw [Except.ok.injEq] at h
          subst h
          refine ⟨?_, ?_, ?_⟩
          · intro c hc
            simp only [List.all_eq_true, decide_eq_true_eq] at hball
            exact hball c hc
          · show TemporalMemory.flatNonzeroB _ _ = _
            congr 1
            unfold paMatrix
            refine List.map_congr_left ?_
            intro i hi
            rw [List.mem_range] at hi
            refine List.map_congr_left ?_
            intro j hj
            rw [List.mem_range] at hj
            rw [getD_map_range _ _ _ _ hi, getD_map_range _ _ _ _ hj,
                getD_map_range _ _ _ _ hi, getD_map_range _ _ _ _ hj]
          · show TemporalMemory.flatNonzeroB _ _ = _
            congr 1
            unfold npSet
            congr 1
            unfold paMatrix
            refine List.map_congr_left ?_
            intro i hi
            rw [List.mem_range] at hi
            refine List.map_congr_left ?_
            intro j hj
            rw [List.mem_range] at hj
            rw [getD_map_range _ _ _ _ hi, getD_map_range _ _ _ _ hj,
                getD_map_range _ _ _ _ hi, getD_map_range _ _ _ _ hj]

/-- Decomposition of a successful compute call: phase 1 and the winner loop
succeeded, the returned active cells equal the stored ones and come from
phase 1, and the stored winner cells are the pre-burst winners followed by
the bursting-column winners. -/
theorem compute_ok_parts (p : TemporalMemory.TMParams) (st : TemporalMemory.TMState)
    (cols : List ℕ) (learn : Bool) (rng : Rng) (o : TemporalMemory.TMOut)
    (h : TemporalMemory.compute p st cols learn rng = Except.ok o) :
    ∃ pre extra, TemporalMemory.tmPhase1 p st cols = Except.ok pre
      ∧ (∃ cells1 rng1, TemporalMemory.goWinner p pre.newActive st.winnerCells learn
          pre.bursting st.cells [] rng = Except.ok (cells1, extra, rng1))
      ∧ o.activeOut = pre.newActive
      ∧ o.state.activeCells = pre.newActive
      ∧ o.state.winnerCells = pre.winners0 ++ extra := by
  simp only [TemporalMemory.compute] at h
  split at h
  · exact absurd h (by simp)
  · rename_i pre hpre
    split at h
    · exact absurd h (by simp)
    · rename_i cells1 extra rng1 hgo
      split at h
      · exact absurd h (by simp)
      · rename_i cells2 rng2 hlearn
        rw [Except.ok.injEq] at h
        rw [← h]
        exact ⟨pre, extra, hpre, ⟨cells1, rng1, hgo⟩, rfl, rfl, rfl⟩

/-- C5: in every compute cycle that completes, the predicted-active cells
(cells predictive from the previous cycle that lie in an active column)
are a subset of the activeCells returned by the call. -/
theorem C5_predicted_subset_active (p : TemporalMemory.TMParams)
    (st : TemporalMemory.TMState) (cols : List ℕ) (learn : Bool) (rng : Rng)
    (o : TemporalMemory.TMOut)
    (h : TemporalMemory.compute p st cols learn rng = Except.ok o) :
    ∀ k ∈ predictedActiveFlat p st cols, k ∈ o.activeOut := by
  obtain ⟨pre, extra, hpre, -, hact, -, -⟩ := compute_ok_parts p st cols learn rng o h
  obtain ⟨hb, hw0, hna⟩ := tmPhase1_ok_facts p st cols pre hpre
  intro k hk
  rw [hact, hna, flatNonzeroB_mem]
  unfold predictedActiveFlat at hk
  rw [flatNonzeroB_mem] at hk
  obtain ⟨i, hi, j, hj, hij, rfl⟩ := hk
  refine ⟨i, by rw [npSet_length]; exact hi, j, hj, ?_, rfl⟩
  rw [npSet_getD]
  split
  · exact getD_replicate _ _ _ _ hj
  · exact hij

/-- C5 witness: on the concrete predictive state stC5, compute succeeds and
the predicted-active cell 0 is among the returned active cells. -/
theorem C5_predicted_subset_active_witness : (0 : ℕ) ∈ oC5.activeOut :=
  C5_predicted_subset_active tmP stC5 [0] false (npSeed 1) oC5
    (by with_unfolding_all rfl) 0 (by with_unfolding_all decide)

/-- C10: after every compute call that completes, the stored winnerCells
are a subset of the stored activeCells. -/
theorem C10_winners_subset_active (p : TemporalMemory.TMParams)
    (st : TemporalMemory.TMState) (cols : List ℕ) (learn : Bool) (rng : Rng)
    (o : TemporalMemory.TMOut)
    (h : TemporalMemory.compute p st cols learn rng = Except.ok o) :
    ∀ k ∈ o.state.winnerCells, k ∈ o.state.activeCells := by
  obtain ⟨pre, extra, hpre, ⟨cells1, rng1, hgo⟩, -, hact, hwin⟩ :=
    compute_ok_parts p st cols learn rng o h
  obtain ⟨hb, hw0, hna⟩ := tmPhase1_ok_facts p st cols pre hpre
  have hpalen : (paMatrix p st cols).length = p.columnDim := by
    unfold paMatrix
    rw [List.length_map, List.length_range]
  intro k hk
  rw [hwin] at hk
  rw [hact, hna, flatNonzeroB_mem]
  rcases List.mem_append.mp hk with hk | hk
  · rw [hw0, flatNonzeroB_mem] at hk
    obtain ⟨i, hi, j, hj, hij, rfl⟩ := hk
    refine ⟨i, by rw [npSet_length]; exact hi, j, hj, ?_, rfl⟩
    rw [npSet_getD]
    split
    · exact getD_replicate _ _ _ _ hj
    · exact hij
  · rcases goWinner_extra p pre.newActive st.winnerCells learn pre.bursting st.cells []
      rng cells1 extra rng1 hgo k hk with hk2 | ⟨c, v, hc, hv, rfl⟩
    · simp at hk2
    · have hcd : c < (paMatrix p st cols).length := by
        rw [hpalen]
        exact hb c hc
      refine ⟨c, by rw [npSet_length]; exact hcd, v, hv, ?_, rfl⟩
      rw [npSet_getD, if_pos ⟨hc, hcd⟩]
      exact getD_replicate _ _ _ _ hv

/-- C10 witness: on the concrete state stC5, compute succeeds and the
bursting-column winner 2 (a stored winner cell) is among the stored active
cells. -/
theorem C10_winners_subset_active_witness : (2 : ℕ) ∈ oC5.state.activeCells :=
  C10_winners_subset_active tmP stC5 [0] false (npSeed 1) oC5
    (by with_unfolding_all rfl) 2 (by with_unfolding_all decide)

/-- The adaptSegment growth branch is dead code: a position needs
updates > 0 (hence an existing synapse that just received a positive
increment) and a post-clip permanence of exactly 0, which is impossible;
adaptSegment therefore always succeeds. -/
theorem adaptSegment_never_fails (n : ℕ) (st : BasicTMCell.CellState) (segment : ℕ)
    (prev : List ℕ) (maxNew : ℕ) (ip inc dec : ℚ) (rng : Rng) :
    ∃ out, BasicTMCell.adaptSegment n st segment prev maxNew ip inc dec rng
      = Except.ok out := by
  simp only [BasicTMCell.adaptSegment]
  split
  · split
    · rename_i helig
      exfalso
      obtain ⟨i, hi⟩ := List.exists_mem_of_length_pos helig
      rw [List.mem_filter] at hi
      have hp := hi.2
      rw [Bool.and_eq_true, decide_eq_true_eq, decide_eq_true_eq] at hp
      obtain ⟨hu, hz⟩ := hp
      set old := st.segments.getD segment [] with hold
      set u0 := npSet (List.replicate n (int8Q dec)) prev (int8Q inc) with hu0
      have hiu : i < (List.zipWith (fun u p => if 0 < p then u else 0) u0 old).length := by
        by_contra hge
        rw [List.getD_eq_default _ _ (Nat.le_of_not_lt hge)] at hu
        exact absurd hu (by norm_num)
      rw [List.length_zipWith] at hiu
      have hio : i < old.length := lt_of_lt_of_le hiu (min_le_right _ _)
      have hiu0 : i < u0.length := lt_of_lt_of_le hiu (min_le_left _ _)
      rw [zipWith_getD _ _ _ _ _ hiu0 hio] at hu
      have hop : 0 < old.getD i 0 := by
        by_contra hnp
        rw [if_neg hnp] at hu
        exact absurd hu (by norm_num)
      rw [if_pos hop] at hu
      have hzz : (List.zipWith (fun p u => clip01 (p + u)) old
          (List.zipWith (fun u p => if 0 < p then u else 0) u0 old)).getD i 0 = 0 := hz
      rw [zipWith_getD _ _ _ _ _ hio (by rw [List.length_zipWith]; exact hiu),
        zipWith_getD _ _ _ _ _ hiu0 hio, if_pos hop] at hzz
      have hsum : 0 < old.getD i 0 + u0.getD i 0 := by positivity
      have : 0 < clip01 (old.getD i 0 + u0.getD i 0) :=
        lt_min (by norm_num) (lt_max_of_lt_right hsum)
      rw [hzz] at this
      exact absurd this (by norm_num)
    · exact ⟨_, rfl⟩
  · exact ⟨_, rfl⟩
